import Mathlib

/-!
Verification of the index-permutation engine and interpolation-path checker
of `src/build/neb.py` (functions `switch_indices`, `switch_all_indices`,
`check_interpolation`), via a shallow embedding.

Modelling choices:
* Atomic structures are lists of atoms with rational Cartesian positions.
* A computed-result provider (ASE calculator) is a record of a cached energy,
  a cached per-atom force list, and the back-reference to the atoms object it
  believes its results belong to.  Calculators are shared by reference in the
  Python code, so they live in an explicit heap (a list of calculators) and a
  structure refers to its calculator by index; in-place mutation of a shared
  calculator is an update of the heap cell.
* Python values passed as indices / image counts are either ints or
  non-integers (floats); list indexing follows Python semantics (negative
  wrap-around, `IndexError` out of range, `TypeError` on a float index).
* External collaborators (the ASE NEB interpolator, the
  `search_abnormal_bonds` bond-sanity oracle, the trajectory writer) are
  modelled through their narrow interfaces: the interpolator as a function
  giving the positions of each interior image, the oracle as a fallible
  boolean function of a structure, the writer as an explicit record of the
  images written so far and whether the writer was closed.
-/

namespace CarmmNeb

/-- A rational 3-vector: a Cartesian position or a per-atom force. -/
structure Vec3 where
  x : ℚ
  y : ℚ
  z : ℚ
deriving DecidableEq, Repr

/-- One atom of a structure: species label and Cartesian position. -/
structure Atom where
  species : String
  pos : Vec3
deriving DecidableEq, Repr

/-- The computed-result provider (ASE calculator): cached energy, cached
per-atom forces, and the back-reference to the atoms object the results were
computed for (`calc.atoms` in ASE, compared by value by `check_state`). -/
structure Calculator where
  energy : ℚ
  forces : List Vec3
  atomsRef : List Atom
deriving DecidableEq, Repr

/-- The heap of calculators; structures refer to a calculator by position. -/
abbrev Heap := List Calculator

/-- A molecular structure: an ordered list of atoms, optionally referring to
an attached calculator in the heap. -/
structure Structure where
  atoms : List Atom
  calcId : Option Nat
deriving DecidableEq, Repr

/-- Python exception kinds relevant to `neb.py`. -/
inductive PyErr
  | valueError
  | typeError
  | indexError
deriving DecidableEq, Repr

/-- A Python value used where the code expects an integer: either an actual
int or a non-integer (float). -/
inductive PyVal
  | int (z : Int)
  | float (q : ℚ)
deriving DecidableEq, Repr

/-- Embeds `isinstance(v, int)`. -/
def PyVal.isInt : PyVal → Bool
  | .int _ => true
  | .float _ => false

/-- Resolution of a Python list index against a list of length `n`: floats
raise `TypeError`, in-range ints (with negative wrap-around) resolve, anything
else raises `IndexError`. -/
def pyIdx (n : Nat) : PyVal → Except PyErr Nat
  | .float _ => .error .typeError
  | .int z =>
    if 0 ≤ z ∧ z < (n : Int) then .ok z.toNat
    else if -(n : Int) ≤ z ∧ z < 0 then .ok (z + (n : Int)).toNat
    else .error .indexError

/-- Swap of the entries at (already resolved) positions `a` and `b`. -/
def lswapN (l : List α) (a b : Nat) : List α :=
  match l[a]?, l[b]? with
  | some va, some vb => (l.set a vb).set b va
  | _, _ => l

/-- Embeds the Python statement `l[A], l[B] = l[B], l[A]`: the right-hand
reads resolve left to right (`l[B]` first), then the entries are exchanged. -/
def pySwap (l : List α) (A B : PyVal) : Except PyErr (List α) :=
  match pyIdx l.length B with
  | .error e => .error e
  | .ok b =>
    match pyIdx l.length A with
    | .error e => .error e
    | .ok a => .ok (lswapN l a b)

/-- Placeholder atom for (never reached) out-of-range reads. -/
def defaultAtom : Atom := ⟨"", ⟨0, 0, 0⟩⟩

/-- Dereference a structure's calculator in the heap
(`model.get_calculator()`). -/
def getCalc (h : Heap) (s : Structure) : Option (Nat × Calculator) :=
  match s.calcId with
  | some cid =>
    match h[cid]? with
    | some c => some (cid, c)
    | none => none
  | none => none

/-- The force list the structure's calculator reports, when one is attached
(`model.get_calculator().results["forces"]`). -/
def calcForces (h : Heap) (s : Structure) : Option (List Vec3) :=
  (getCalc h s).map (fun pc => pc.2.forces)

/-- Embedding of `switch_indices(model, A, B)` (src/build/neb.py).  The
file-reading branch (string input) is external I/O and is not modelled: the
input is an in-memory structure.  Faithful points: the defective validation
`if not isinstance(A, int) and isinstance(B, int)` rejects only when `A` is
non-integer while `B` is an integer; the index list `t` is swapped before the
force list `f`; the force swap mutates the shared calculator in place (here:
the heap cell is rewritten); the new structure receives the same calculator,
whose atoms back-reference is repointed at the new atoms
(`prev_calc.atoms = new_model`). -/
def switch_indices (h : Heap) (model : Structure) (A B : PyVal) :
    Except PyErr (Heap × Structure) :=
  if !A.isInt && B.isInt then .error .valueError
  else
    let t := List.range model.atoms.length
    let f : List Vec3 :=
      match getCalc h model with
      | some pc => pc.2.forces
      | none => []
    match pySwap t A B with
    | .error e => .error e
    | .ok t' =>
      match (if f = [] then .ok f else pySwap f A B : Except PyErr (List Vec3)) with
      | .error e => .error e
      | .ok f' =>
        let newAtoms := t'.map (fun i => model.atoms.getD i defaultAtom)
        match getCalc h model with
        | some pc =>
          .ok (h.set pc.1 ⟨pc.2.energy, f', newAtoms⟩, ⟨newAtoms, some pc.1⟩)
        | none => .ok (h, ⟨newAtoms, none⟩)

/-- Loop body of `switch_all_indices`: iterate the remaining positions,
swapping position `i` with `new_indices[i]` when `new_indices[i]` differs
from `i` and `i` was not recorded as already swapped; record
`new_indices[i]` after a swap.  The Python `new_indices[i] is not i` identity
test is modelled as value inequality (exact for CPython's cached small ints,
which cover the indices appearing in the claims). -/
def sai_go (p : List Int) : List Nat → List Int → Heap → Structure →
    Except PyErr (Heap × Structure)
  | [], _, h, m => .ok (h, m)
  | i :: rest, swapped, h, m =>
    let pi := p.getD i 0
    if pi ≠ (i : Int) ∧ (i : Int) ∉ swapped then
      match switch_indices h m (.int (i : Int)) (.int pi) with
      | .error e => .error e
      | .ok hm => sai_go p rest (swapped ++ [pi]) hm.1 hm.2
    else sai_go p rest swapped h m

/-- Embedding of `switch_all_indices(model, new_indices)`
(src/build/neb.py): the greedy decomposition of the requested reindexing
into pairwise `switch_indices` swaps. -/
def switch_all_indices (h : Heap) (model : Structure) (new_indices : List Int) :
    Except PyErr (Heap × Structure) :=
  sai_go new_indices (List.range new_indices.length) [] h model

/-- A sequence of `switch_indices` calls, each applied to the structure and
heap produced by the previous one (the usage pattern of the permutation
engine). -/
def swapSeq (h : Heap) (s : Structure) : List (PyVal × PyVal) →
    Except PyErr (Heap × Structure)
  | [] => .ok (h, s)
  | ab :: rest =>
    match switch_indices h s ab.1 ab.2 with
    | .error e => .error e
    | .ok hm => swapSeq hm.1 hm.2 rest

/-- Invariant I1, index alignment: whenever the structure's calculator
reports a force list, that list is exactly the per-atom ground truth `φ`
mapped over the structure's atoms in order — so it has one entry per atom
and entry `i` is the force of the atom at position `i`. -/
def Aligned (φ : Atom → Vec3) (h : Heap) (s : Structure) : Prop :=
  calcForces h s = none ∨ calcForces h s = some (s.atoms.map φ)

/-- The copy `initial.copy()` taken for each interior image: same atoms, no
calculator attached. -/
def structure_copy (s : Structure) : Structure := ⟨s.atoms, none⟩

/-- Replacing the positions of a structure's atoms (what the external NEB
interpolator does to an interior image). -/
def setPositions (s : Structure) (ps : List Vec3) : Structure :=
  ⟨(s.atoms.zip ps).map (fun ap => ⟨ap.1.species, ap.2⟩), s.calcId⟩

/-- The image list `check_interpolation` builds for an integer image count
`z`: `[initial] + [initial.copy() for _ in range(z - 2)] + [final]`, after
which the external ASE NEB interpolation (`neb.interpolate(...)`, modelled
through its contract) replaces the positions of each interior image `k`
with the method-generated positions `posFn k`, leaving the endpoint images
untouched. -/
def ci_images (initial final : Structure) (z : Int) (posFn : Nat → List Vec3) :
    List Structure :=
  [initial] ++
    (List.range (z - 2).toNat).map
      (fun k => setPositions (structure_copy initial) (posFn (k + 1))) ++
    [final]

/-- State of the external trajectory writer for `interpolation.traj`: the
images written so far, in order, and whether the writer was closed. -/
structure Traj where
  written : List Structure
  closed : Bool
deriving DecidableEq, Repr

/-- Structure a (never reached) out-of-range image read would produce. -/
def emptyStructure : Structure := ⟨[], none⟩

/-- The `for i in range(0, n_max)` loop of `check_interpolation`: per image,
call the bond-sanity oracle (which may raise), then, if saving, write the
image to the trajectory regardless of the verdict, then fold the verdict
into the flag (`if not updated_flag: flag = updated_flag`).  After the last
image the writer is closed if saving; if the oracle raises, the loop stops
with the writer in its current (unclosed) state, as the Python code has no
try/finally around the loop. -/
def ci_loop (images : List Structure) (checker : Structure → Except PyErr Bool)
    (save : Bool) : List Nat → Traj → Bool → Traj × Except PyErr Bool
  | [], t, flag => (if save then ⟨t.written, true⟩ else t, .ok flag)
  | i :: rest, t, flag =>
    match checker (images.getD i emptyStructure) with
    | .error e => (t, .error e)
    | .ok updated =>
      let t' := if save then ⟨t.written ++ [images.getD i emptyStructure], t.closed⟩ else t
      ci_loop images checker save rest t' (if !updated then updated else flag)

/-- Embedding of `check_interpolation(initial, final, n_max, interpolation,
verbose, save)` (src/build/neb.py).  External collaborators are passed
through their interfaces: `posFn` is the chosen interpolation method (it
yields the positions of interior image `k`), `checker` is the
`search_abnormal_bonds` bond-sanity oracle with its verbosity folded in.
The first component of the result is the state of the `interpolation.traj`
writer (`none` when `save` is false and the writer is never opened); the
second is the outcome of the call: the returned flag, or the exception it
ends with.  The Python function's return value is only the flag. -/
def check_interpolation (initial final : Structure) (n_max : PyVal)
    (posFn : Nat → List Vec3) (checker : Structure → Except PyErr Bool)
    (verbose save : Bool) : Option Traj × Except PyErr Bool :=
  match n_max with
  | .float _ => (none, .error .valueError)
  | .int z =>
    let images := ci_images initial final z posFn
    let r := ci_loop images checker save (List.range z.toNat) ⟨[], false⟩ true
    (if save then some r.1 else none, r.2)

/-- The value the Python `check_interpolation` returns to its caller: only
the flag (or the exception); the image list is not part of the return
value. -/
def check_interpolation_ret (initial final : Structure) (n_max : PyVal)
    (posFn : Nat → List Vec3) (checker : Structure → Except PyErr Bool)
    (verbose save : Bool) : Except PyErr Bool :=
  (check_interpolation initial final n_max posFn checker verbose save).2

/-! ### Basic facts about index resolution and entry swapping -/

theorem pyIdx_ok_lt {n : Nat} {v : PyVal} {a : Nat} (h : pyIdx n v = .ok a) :
    a < n := by
  cases v with
  | float q => simp [pyIdx] at h
  | int z =>
    simp only [pyIdx] at h
    split at h
    · rename_i hz
      cases h
      omega
    · split at h
      · rename_i hz
        cases h
        omega
      · cases h

theorem pyIdx_isInt {n : Nat} {v : PyVal} {a : Nat} (h : pyIdx n v = .ok a) :
    v.isInt = true := by
  cases v with
  | float q => simp [pyIdx] at h
  | int z => rfl

theorem pyIdx_nat {k n : Nat} (h : k < n) : pyIdx n (.int (k : Int)) = .ok k := by
  simp only [pyIdx]
  rw [if_pos]
  · simp
  · exact ⟨Int.ofNat_nonneg k, by exact_mod_cast h⟩

theorem lswapN_of_lt {l : List α} {a b : Nat} (ha : a < l.length)
    (hb : b < l.length) : lswapN l a b = (l.set a l[b]).set b l[a] := by
  simp [lswapN, List.getElem?_eq_getElem ha, List.getElem?_eq_getElem hb]

theorem lswapN_length (l : List α) (a b : Nat) :
    (lswapN l a b).length = l.length := by
  unfold lswapN
  split <;> simp

theorem lswapN_getElem? {l : List α} {a b : Nat} (ha : a < l.length)
    (hb : b < l.length) (k : Nat) :
    (lswapN l a b)[k]? = if k = b then l[a]? else if k = a then l[b]? else l[k]? := by
  rw [lswapN_of_lt ha hb]
  by_cases hkb : k = b
  · subst hkb
    rw [List.getElem?_set_self (by simpa using hb), List.getElem?_eq_getElem ha,
      if_pos rfl]
  · rw [List.getElem?_set_ne (fun h => hkb h.symm), if_neg hkb]
    by_cases hka : k = a
    · subst hka
      rw [List.getElem?_set_self ha, List.getElem?_eq_getElem hb, if_pos rfl]
    · rw [List.getElem?_set_ne (fun h => hka h.symm), if_neg hka]

theorem lswapN_map (f : α → β) {l : List α} {a b : Nat} (ha : a < l.length)
    (hb : b < l.length) : (lswapN l a b).map f = lswapN (l.map f) a b := by
  rw [lswapN_of_lt ha hb, lswapN_of_lt (l := l.map f) (by simpa using ha) (by simpa using hb)]
  simp [List.map_set]

theorem set_own_getElem (l : List α) (i : Nat) (h : i < l.length) :
    l.set i l[i] = l := by
  apply List.ext_getElem?
  intro n
  by_cases hn : n = i
  · subst hn
    rw [List.getElem?_set_self h, List.getElem?_eq_getElem h]
  · rw [List.getElem?_set_ne (fun hh => hn hh.symm)]

theorem lswapN_self (l : List α) (a : Nat) : lswapN l a a = l := by
  unfold lswapN
  cases hla : l[a]? with
  | none => rfl
  | some va =>
    simp only [hla, List.set_set]
    obtain ⟨hlt, hv⟩ := List.getElem?_eq_some.mp hla
    subst hv
    exact set_own_getElem l a hlt

theorem map_getD_range {l : List α} (d : α) :
    (List.range l.length).map (fun i => l.getD i d) = l := by
  apply List.ext_getElem?
  intro n
  by_cases hn : n < l.length
  · rw [List.getElem?_map, List.getElem?_range hn]
    simp [List.getD_eq_getElem l d hn, List.getElem?_eq_getElem hn]
  · rw [List.getElem?_map]
    have h1 : (List.range l.length)[n]? = none := by
      simp [List.getElem?_eq_none_iff]
      omega
    have h2 : l[n]? = none := by
      simp [List.getElem?_eq_none_iff]
      omega
    simp [h1, h2]

theorem range_lswapN_map {l : List α} (d : α) {a b : Nat} (ha : a < l.length)
    (hb : b < l.length) :
    (lswapN (List.range l.length) a b).map (fun i => l.getD i d) = lswapN l a b := by
  rw [lswapN_of_lt (l := List.range l.length) (by simpa using ha) (by simpa using hb)]
  simp only [List.map_set, map_getD_range, List.getElem_range]
  rw [lswapN_of_lt ha hb, List.getD_eq_getElem l d ha, List.getD_eq_getElem l d hb]

theorem pySwap_eq_ok {l : List α} {A B : PyVal} {a b : Nat}
    (ha : pyIdx l.length A = .ok a) (hb : pyIdx l.length B = .ok b) :
    pySwap l A B = .ok (lswapN l a b) := by
  simp [pySwap, ha, hb]

theorem pySwap_ok_elim {l : List α} {A B : PyVal} {l' : List α}
    (h : pySwap l A B = .ok l') :
    ∃ a b, pyIdx l.length A = .ok a ∧ pyIdx l.length B = .ok b ∧
      l' = lswapN l a b := by
  unfold pySwap at h
  cases hB : pyIdx l.length B with
  | error e => rw [hB] at h; cases h
  | ok b =>
    rw [hB] at h
    cases hA : pyIdx l.length A with
    | error e => rw [hA] at h; cases h
    | ok a =>
      rw [hA] at h
      cases h
      exact ⟨a, b, rfl, rfl, rfl⟩

/-! ### The behaviour of a successful `switch_indices` call -/

theorem getCalc_eq_some {h : Heap} {s : Structure} {cid : Nat} {c : Calculator} :
    getCalc h s = some (cid, c) ↔ s.calcId = some cid ∧ h[cid]? = some c := by
  unfold getCalc
  constructor
  · intro hg
    split at hg
    · rename_i cid' hcid
      split at hg
      · rename_i c' hc
        cases hg
        exact ⟨hcid, hc⟩
      · cases hg
    · cases hg
  · intro ⟨h1, h2⟩
    rw [h1]
    simp only [h2]

/-- What `switch_indices` does on a structure with no attached calculator and
valid indices: it returns the untouched heap and a new structure whose atom
list has entries `a` and `b` exchanged. -/
theorem switch_indices_none {h : Heap} {s : Structure} {A B : PyVal} {a b : Nat}
    (hg : getCalc h s = none)
    (ha : pyIdx s.atoms.length A = .ok a) (hb : pyIdx s.atoms.length B = .ok b) :
    switch_indices h s A B = .ok (h, ⟨lswapN s.atoms a b, none⟩) := by
  have hInt : A.isInt = true := pyIdx_isInt ha
  have halt := pyIdx_ok_lt ha
  have hblt := pyIdx_ok_lt hb
  unfold switch_indices
  rw [hInt]
  simp only [Bool.not_true, Bool.false_and, Bool.false_eq_true, if_false, hg]
  rw [pySwap_eq_ok (l := List.range s.atoms.length) (by simpa using ha) (by simpa using hb)]
  have hmap := range_lswapN_map (l := s.atoms) defaultAtom halt hblt
  simp only [List.getD_eq_getElem?_getD] at hmap
  simp [hmap]

/-- What `switch_indices` does on a structure with an attached calculator
whose force list is aligned in length, at valid indices: the atoms and the
forces are exchanged at the same two positions, the shared calculator cell is
mutated in place (same energy, swapped forces, atoms back-reference repointed
at the new atom list) and the new structure carries the same calculator. -/
theorem switch_indices_calc {h : Heap} {s : Structure} {cid : Nat}
    {c : Calculator} {A B : PyVal} {a b : Nat}
    (hg : getCalc h s = some (cid, c))
    (hlen : c.forces.length = s.atoms.length)
    (ha : pyIdx s.atoms.length A = .ok a) (hb : pyIdx s.atoms.length B = .ok b) :
    switch_indices h s A B =
      .ok (h.set cid ⟨c.energy, lswapN c.forces a b, lswapN s.atoms a b⟩,
        ⟨lswapN s.atoms a b, some cid⟩) := by
  have hInt : A.isInt = true := pyIdx_isInt ha
  have halt := pyIdx_ok_lt ha
  have hblt := pyIdx_ok_lt hb
  have hne : c.forces ≠ [] := by
    intro hnil
    rw [hnil] at hlen
    simp at hlen
    omega
  unfold switch_indices
  rw [hInt]
  simp only [Bool.not_true, Bool.false_and, Bool.false_eq_true, if_false, hg]
  rw [pySwap_eq_ok (l := List.range s.atoms.length) (by simpa using ha) (by simpa using hb)]
  simp only [if_neg hne]
  rw [pySwap_eq_ok (l := c.forces) (by rw [hlen]; exact ha) (by rw [hlen]; exact hb)]
  have hmap := range_lswapN_map (l := s.atoms) defaultAtom halt hblt
  simp only [List.getD_eq_getElem?_getD] at hmap
  simp [hmap]

/-- A successful `switch_indices` call presupposes that both indices resolved
against the atom count. -/
theorem switch_indices_ok_elim {h : Heap} {s : Structure} {A B : PyVal}
    {h' : Heap} {s' : Structure}
    (hok : switch_indices h s A B = .ok (h', s')) :
    ∃ a b, pyIdx s.atoms.length A = .ok a ∧ pyIdx s.atoms.length B = .ok b := by
  simp only [switch_indices] at hok
  split at hok
  · cases hok
  · rcases hsw : pySwap (List.range s.atoms.length) A B with e | t'
    · rw [hsw] at hok
      cases hok
    · obtain ⟨a, b, hA, hB, _⟩ := pySwap_ok_elim hsw
      exact ⟨a, b, by simpa using hA, by simpa using hB⟩

/-- One `switch_indices` step preserves Invariant I1 and the atom count. -/
theorem switch_indices_aligned {φ : Atom → Vec3} {h : Heap} {s : Structure}
    {A B : PyVal} {h' : Heap} {s' : Structure}
    (hal : Aligned φ h s) (hok : switch_indices h s A B = .ok (h', s')) :
    Aligned φ h' s' ∧ s'.atoms.length = s.atoms.length := by
  obtain ⟨a, b, hA, hB⟩ := switch_indices_ok_elim hok
  have halt := pyIdx_ok_lt hA
  have hblt := pyIdx_ok_lt hB
  cases hg : getCalc h s with
  | none =>
    rw [switch_indices_none hg hA hB] at hok
    have hok' : h = h' ∧ (⟨lswapN s.atoms a b, none⟩ : Structure) = s' := by
      simpa using hok
    obtain ⟨rfl, rfl⟩ := hok'
    refine ⟨Or.inl ?_, by simp [lswapN_length]⟩
    simp [calcForces, getCalc]
  | some pc =>
    obtain ⟨cid, c⟩ := pc
    have hcf : calcForces h s = some c.forces := by simp [calcForces, hg]
    have hforces : c.forces = s.atoms.map φ := by
      cases hal with
      | inl hnone => rw [hcf] at hnone; cases hnone
      | inr hsome =>
        rw [hcf] at hsome
        exact Option.some_inj.mp hsome
    have hlen : c.forces.length = s.atoms.length := by
      rw [hforces]
      simp
    rw [switch_indices_calc hg hlen hA hB] at hok
    have hok' : h.set cid ⟨c.energy, lswapN c.forces a b, lswapN s.atoms a b⟩ = h' ∧
        (⟨lswapN s.atoms a b, some cid⟩ : Structure) = s' := by
      simpa using hok
    obtain ⟨rfl, rfl⟩ := hok'
    have hcid_lt : cid < h.length := by
      obtain ⟨_, hc⟩ := getCalc_eq_some.mp hg
      exact (List.getElem?_eq_some.mp hc).1
    refine ⟨Or.inr ?_, by simp [lswapN_length]⟩
    simp only [calcForces, getCalc]
    rw [List.getElem?_set_self (by simpa using hcid_lt)]
    simp only [Option.map_some']
    rw [hforces, ← lswapN_map φ halt hblt]

/-- A whole sequence of swaps preserves Invariant I1 and the atom count. -/
theorem swapSeq_aligned {φ : Atom → Vec3} :
    ∀ (l : List (PyVal × PyVal)) (h : Heap) (s : Structure) {h' : Heap}
      {s' : Structure}, Aligned φ h s → swapSeq h s l = .ok (h', s') →
      Aligned φ h' s' ∧ s'.atoms.length = s.atoms.length
  | [], h, s, h', s', hal, hok => by
    have hok' : h = h' ∧ s = s' := by simpa [swapSeq] using hok
    obtain ⟨rfl, rfl⟩ := hok'
    exact ⟨hal, rfl⟩
  | ab :: rest, h, s, h', s', hal, hok => by
    simp only [swapSeq] at hok
    rcases hsw : switch_indices h s ab.1 ab.2 with e | hm
    · rw [hsw] at hok
      cases hok
    · rw [hsw] at hok
      obtain ⟨hal1, hlen1⟩ := switch_indices_aligned hal hsw
      obtain ⟨hal2, hlen2⟩ := swapSeq_aligned rest hm.1 hm.2 hal1 hok
      exact ⟨hal2, hlen2.trans hlen1⟩

instance (φ : Atom → Vec3) (h : Heap) (s : Structure) :
    Decidable (Aligned φ h s) := by
  unfold Aligned
  infer_instance

/-! ### Concrete fixtures used by the witnesses and counterexamples -/

/-- A carbon atom at the origin. -/
def wAtomA : Atom := ⟨"C", ⟨0, 0, 0⟩⟩

/-- An oxygen atom at x = 1. -/
def wAtomB : Atom := ⟨"O", ⟨1, 0, 0⟩⟩

/-- A concrete ground-truth force assignment. -/
def wPhi : Atom → Vec3 := fun a => ⟨a.pos.y, a.pos.x, 5⟩

/-- A calculator holding cached results for `[wAtomA, wAtomB]`. -/
def wCalc : Calculator := ⟨(-3 : ℚ), [wPhi wAtomA, wPhi wAtomB], [wAtomA, wAtomB]⟩

/-- A one-calculator heap. -/
def wHeap : Heap := [wCalc]

/-- A two-atom structure with the calculator attached. -/
def wS : Structure := ⟨[wAtomA, wAtomB], some 0⟩

/-- A two-atom structure with no calculator attached. -/
def wSnc : Structure := ⟨[wAtomA, wAtomB], none⟩

/-! ### C1 — index-alignment invariant under sequences of swaps -/

/-- C1: for every structure whose attached force vector satisfies Invariant
I1 (`Aligned`: one entry per atom, entry i belonging to the atom at position
i), after any successful sequence of `switch_indices` swaps the resulting
structure still has the same atom count and still satisfies I1 — each swap
reorders the atoms and the force vector in the same operation. -/
theorem claim_C1_index_alignment (φ : Atom → Vec3) (h : Heap) (s : Structure)
    (swaps : List (PyVal × PyVal)) (h' : Heap) (s' : Structure)
    (hal : Aligned φ h s) (hok : swapSeq h s swaps = .ok (h', s')) :
    s'.atoms.length = s.atoms.length ∧ Aligned φ h' s' :=
  ⟨(swapSeq_aligned swaps h s hal hok).2, (swapSeq_aligned swaps h s hal hok).1⟩

/-- Witness for C1 at a concrete two-atom structure and a two-swap run. -/
theorem claim_C1_index_alignment_witness :
    (Aligned wPhi wHeap wS ∧
      swapSeq wHeap wS [(.int 0, .int 1), (.int 1, .int 0)] = .ok (wHeap, wS)) ∧
    (wS.atoms.length = wS.atoms.length ∧ Aligned wPhi wHeap wS) :=
  ⟨⟨by decide, by rfl⟩,
    claim_C1_index_alignment wPhi wHeap wS [(.int 0, .int 1), (.int 1, .int 0)]
      wHeap wS (by decide) (by rfl)⟩

/-! ### C2 — the swap is not free of side effects on the shared calculator -/

/-- The heap after swapping atoms 0 and 1 of `wS`: the shared calculator cell
has its force entries exchanged and its atoms back-reference repointed. -/
def wHeapSwapped : Heap :=
  [⟨(-3 : ℚ), [wPhi wAtomB, wPhi wAtomA], [wAtomB, wAtomA]⟩]

/-- The structure returned by swapping atoms 0 and 1 of `wS`. -/
def wSSwapped : Structure := ⟨[wAtomB, wAtomA], some 0⟩

/-- Counterexample to C2 as stated: after `switch_indices(wS, 0, 1)` the
calculator attached to the original structure (heap cell 0, shared with the
returned structure) no longer holds its pre-call state — its force entries
were swapped in place and its atoms back-reference was repointed, so the
original structure's observable force vector and provider state did change. -/
theorem claim_C2_counterexample :
    switch_indices wHeap wS (.int 0) (.int 1) = .ok (wHeapSwapped, wSSwapped) ∧
    wHeapSwapped[0]? ≠ wHeap[0]? := by
  constructor
  · rfl
  · decide

/-- C2 (amended): `switch_indices` does not mutate the input structure value
(it builds and returns a new structure), but it is not side-effect free: the
calculator shared with the original structure is mutated in place — its force
entries are exchanged and its atoms back-reference is repointed at the new
atom list — and no other heap cell changes. -/
theorem claim_C2_amended (h : Heap) (s : Structure) (cid : Nat)
    (c : Calculator) (A B : PyVal) (a b : Nat)
    (hg : getCalc h s = some (cid, c))
    (hlen : c.forces.length = s.atoms.length)
    (ha : pyIdx s.atoms.length A = .ok a)
    (hb : pyIdx s.atoms.length B = .ok b) :
    switch_indices h s A B =
      .ok (h.set cid ⟨c.energy, lswapN c.forces a b, lswapN s.atoms a b⟩,
        ⟨lswapN s.atoms a b, some cid⟩) :=
  switch_indices_calc hg hlen ha hb

/-- Witness for the amended C2 at the concrete two-atom structure. -/
theorem claim_C2_amended_witness :
    (getCalc wHeap wS = some (0, wCalc) ∧
      wCalc.forces.length = wS.atoms.length ∧
      pyIdx wS.atoms.length (.int 0) = .ok 0 ∧
      pyIdx wS.atoms.length (.int 1) = .ok 1) ∧
    switch_indices wHeap wS (.int 0) (.int 1) =
      .ok (wHeap.set 0 ⟨wCalc.energy, lswapN wCalc.forces 0 1, lswapN wS.atoms 0 1⟩,
        ⟨lswapN wS.atoms 0 1, some 0⟩) :=
  ⟨⟨by rfl, by rfl, by rfl, by rfl⟩,
    claim_C2_amended wHeap wS 0 wCalc (.int 0) (.int 1) 0 1 (by rfl)
      (by rfl) (by rfl) (by rfl)⟩

/-! ### C5 — provider carry-over -/

/-- C5: after a valid swap on a structure with an attached, I1-aligned
calculator, the returned structure carries the same calculator, that
calculator's atoms back-reference now points at the new structure's atom
list, its cached energy is unchanged (nothing is recomputed in the model),
and its force list is the ground truth mapped over the new atom order. -/
theorem claim_C5_provider_carryover (φ : Atom → Vec3) (h : Heap)
    (s : Structure) (cid : Nat) (c : Calculator) (A B : PyVal) (a b : Nat)
    (hg : getCalc h s = some (cid, c)) (hal : Aligned φ h s)
    (ha : pyIdx s.atoms.length A = .ok a)
    (hb : pyIdx s.atoms.length B = .ok b) :
    ∃ h' s', switch_indices h s A B = .ok (h', s') ∧
      s'.calcId = s.calcId ∧
      getCalc h' s' = some (cid, ⟨c.energy, s'.atoms.map φ, s'.atoms⟩) := by
  have hcf : calcForces h s = some c.forces := by simp [calcForces, hg]
  have hforces : c.forces = s.atoms.map φ := by
    cases hal with
    | inl hnone => rw [hcf] at hnone; cases hnone
    | inr hsome =>
      rw [hcf] at hsome
      exact Option.some_inj.mp hsome
  have hlen : c.forces.length = s.atoms.length := by
    rw [hforces]
    simp
  have halt := pyIdx_ok_lt ha
  have hblt := pyIdx_ok_lt hb
  have hcid_lt : cid < h.length := by
    obtain ⟨_, hc⟩ := getCalc_eq_some.mp hg
    exact (List.getElem?_eq_some.mp hc).1
  refine ⟨_, _, switch_indices_calc hg hlen ha hb, ?_, ?_⟩
  · exact ((getCalc_eq_some.mp hg).1).symm
  · apply getCalc_eq_some.mpr
    refine ⟨rfl, ?_⟩
    rw [List.getElem?_set_self (by simpa using hcid_lt)]
    rw [hforces, ← lswapN_map φ halt hblt]

/-- Witness for C5 at the concrete two-atom structure. -/
theorem claim_C5_provider_carryover_witness :
    (getCalc wHeap wS = some (0, wCalc) ∧ Aligned wPhi wHeap wS ∧
      pyIdx wS.atoms.length (.int 0) = .ok 0 ∧
      pyIdx wS.atoms.length (.int 1) = .ok 1) ∧
    (∃ h' s', switch_indices wHeap wS (.int 0) (.int 1) = .ok (h', s') ∧
      s'.calcId = wS.calcId ∧
      getCalc h' s' = some (0, ⟨wCalc.energy, s'.atoms.map wPhi, s'.atoms⟩)) :=
  ⟨⟨by rfl, by decide, by rfl, by rfl⟩,
    claim_C5_provider_carryover wPhi wHeap wS 0 wCalc (.int 0) (.int 1) 0 1
      (by rfl) (by decide) (by rfl) (by rfl)⟩

/-! ### C10 — self-swap is a no-op on ordering and forces -/

/-- C10: a self-swap `switch_indices(s, A, A)` at a valid index succeeds and
returns a structure with the same atom ordering and (given Invariant I1's
length condition on any attached force vector) an unchanged force vector. -/
theorem claim_C10_self_swap (h : Heap) (s : Structure) (A : PyVal) (a : Nat)
    (ha : pyIdx s.atoms.length A = .ok a)
    (hwf : Option.all (fun fs => fs.length == s.atoms.length)
      (calcForces h s) = true) :
    ∃ h' s', switch_indices h s A A = .ok (h', s') ∧ s'.atoms = s.atoms ∧
      calcForces h' s' = calcForces h s := by
  cases hg : getCalc h s with
  | none =>
    refine ⟨_, _, switch_indices_none hg ha ha, ?_, ?_⟩
    · exact lswapN_self s.atoms a
    · have h1 : calcForces h (⟨lswapN s.atoms a a, none⟩ : Structure) = none := by
        simp [calcForces, getCalc]
      have h2 : calcForces h s = none := by simp [calcForces, hg]
      rw [h1, h2]
  | some pc =>
    obtain ⟨cid, c⟩ := pc
    have hcf : calcForces h s = some c.forces := by simp [calcForces, hg]
    have hlen : c.forces.length = s.atoms.length := by
      rw [hcf] at hwf
      simpa using hwf
    have hcid_lt : cid < h.length := by
      obtain ⟨_, hc⟩ := getCalc_eq_some.mp hg
      exact (List.getElem?_eq_some.mp hc).1
    refine ⟨_, _, switch_indices_calc hg hlen ha ha, ?_, ?_⟩
    · exact lswapN_self s.atoms a
    · have hg' : getCalc
          (h.set cid ⟨c.energy, lswapN c.forces a a, lswapN s.atoms a a⟩)
          (⟨lswapN s.atoms a a, some cid⟩ : Structure) =
          some (cid, ⟨c.energy, lswapN c.forces a a, lswapN s.atoms a a⟩) :=
        getCalc_eq_some.mpr ⟨rfl, List.getElem?_set_self (by simpa using hcid_lt)⟩
      have hx : calcForces
          (h.set cid ⟨c.energy, lswapN c.forces a a, lswapN s.atoms a a⟩)
          (⟨lswapN s.atoms a a, some cid⟩ : Structure) =
          some (lswapN c.forces a a) := by
        simp only [calcForces, hg', Option.map_some']
      rw [hx, lswapN_self, hcf]

/-- Witness for C10 at the concrete two-atom structure, index 1. -/
theorem claim_C10_self_swap_witness :
    (pyIdx wS.atoms.length (.int 1) = .ok 1 ∧
      Option.all (fun fs => fs.length == wS.atoms.length)
        (calcForces wHeap wS) = true) ∧
    (∃ h' s', switch_indices wHeap wS (.int 1) (.int 1) = .ok (h', s') ∧
      s'.atoms = wS.atoms ∧ calcForces h' s' = calcForces wHeap wS) :=
  ⟨⟨by rfl, by rfl⟩,
    claim_C10_self_swap wHeap wS (.int 1) 1 (by rfl) (by rfl)⟩

/-! ### C4 — argument rejection -/

/-- Counterexample to C4 as stated: a call with an integer first index and a
non-integer second index is not rejected by the explicit validation — it
fails with a `TypeError` at the index manipulation, not with the
`InvalidArgument` (`ValueError`) rejection the claim requires. -/
theorem claim_C4_counterexample :
    switch_indices [] wSnc (.int 0) (.float (3 / 2)) = .error .typeError ∧
    (Except.error .typeError : Except PyErr (Heap × Structure)) ≠
      .error .valueError := by
  refine ⟨rfl, ?_⟩
  intro hcon
  injection hcon with hc
  exact PyErr.noConfusion hc

/-- C4 (amended): the explicit `ValueError` rejection fires exactly when the
first index is non-integer while the second is an integer; a non-integer
second index instead makes the call fail with a `TypeError` when the index
list is manipulated — in every such case before any structure is produced or
any calculator state is touched; and `check_interpolation` rejects every
non-integer image count with `ValueError` before building images or opening
the trajectory writer. -/
theorem claim_C4_amended :
    (∀ (h : Heap) (s : Structure) (qa : ℚ) (zb : Int),
      switch_indices h s (.float qa) (.int zb) = .error .valueError) ∧
    (∀ (h : Heap) (s : Structure) (A : PyVal) (qb : ℚ),
      switch_indices h s A (.float qb) = .error .typeError) ∧
    (∀ (initial final : Structure) (q : ℚ) (posFn : Nat → List Vec3)
      (checker : Structure → Except PyErr Bool) (verbose save : Bool),
      check_interpolation initial final (.float q) posFn checker verbose save =
        (none, .error .valueError)) := by
  refine ⟨?_, ?_, ?_⟩
  · intro h s qa zb
    simp [switch_indices, PyVal.isInt]
  · intro h s A qb
    simp [switch_indices, pySwap, pyIdx, PyVal.isInt, Bool.and_false]
  · intro initial final q posFn checker verbose save
    rfl

/-! ### The interpolation loop with a total bond-sanity oracle -/

/-- With an oracle that never raises, the loop's outcome is the starting flag
conjoined with the verdicts of all visited images: `flag` is set to `false`
at the first failing image and never reset. -/
theorem ci_loop_total_ret (images : List Structure) (cb : Structure → Bool)
    (save : Bool) : ∀ (idxs : List Nat) (t : Traj) (flag : Bool),
    (ci_loop images (fun s => .ok (cb s)) save idxs t flag).2 =
      .ok (flag && idxs.all (fun i => cb (images.getD i emptyStructure)))
  | [], t, flag => by simp [ci_loop]
  | i :: rest, t, flag => by
    simp only [ci_loop, List.all_cons]
    rw [ci_loop_total_ret images cb save rest _ _]
    cases hcb : cb (images.getD i emptyStructure) <;> cases flag <;> simp [hcb]

/-- Ranging over all positions of a list and reading each entry back is the
same as traversing the list. -/
theorem all_range_getD (cb : α → Bool) (d : α) (l : List α) :
    (List.range l.length).all (fun i => cb (l.getD i d)) = l.all cb := by
  rw [Bool.eq_iff_iff]
  simp only [List.all_eq_true, List.mem_range]
  constructor
  · intro hx x hmem
    obtain ⟨i, hi, hgi⟩ := List.mem_iff_getElem.mp hmem
    rw [← hgi, ← List.getD_eq_getElem l d hi]
    exact hx i hi
  · intro hx i hi
    rw [List.getD_eq_getElem l d hi]
    exact hx _ (List.getElem_mem hi)

/-- The image list has exactly `z.toNat` entries when `2 ≤ z`. -/
theorem ci_images_length (initial final : Structure) (z : Int)
    (posFn : Nat → List Vec3) (hz : 2 ≤ z) :
    (ci_images initial final z posFn).length = z.toNat := by
  simp only [ci_images, List.length_append, List.length_map, List.length_range,
    List.length_singleton]
  omega

/-! ### C6 — endpoint fixing and image count -/

/-- C6: for every pair of endpoint structures and every integer image count
`z ≥ 2`, the image list `check_interpolation` builds and checks has exactly
`z` entries, its first entry is the initial structure unchanged and its last
entry is the final structure unchanged (so there are `z - 2` generated
interior images). -/
theorem claim_C6_endpoint_fixing (initial final : Structure) (z : Int)
    (posFn : Nat → List Vec3) (hz : 2 ≤ z) :
    (ci_images initial final z posFn).length = z.toNat ∧
    (ci_images initial final z posFn)[0]? = some initial ∧
    (ci_images initial final z posFn).getLast? = some final := by
  refine ⟨ci_images_length initial final z posFn hz, by simp [ci_images], ?_⟩
  rw [ci_images]
  exact List.getLast?_concat _

/-- A second endpoint structure for the interpolation fixtures. -/
def wFinal : Structure := ⟨[⟨"C", ⟨2, 0, 0⟩⟩, ⟨"O", ⟨3, 0, 0⟩⟩], none⟩

/-- A third, different endpoint structure. -/
def wFinal2 : Structure := ⟨[⟨"C", ⟨4, 0, 0⟩⟩, ⟨"O", ⟨5, 0, 0⟩⟩], none⟩

/-- A concrete interpolation-method stand-in: every interior image gets both
atoms placed at x = 9. -/
def wPosFn : Nat → List Vec3 := fun _ => [⟨9, 0, 0⟩, ⟨9, 1, 0⟩]

/-- Witness for C6 with five images. -/
theorem claim_C6_endpoint_fixing_witness :
    (2 ≤ (5 : Int)) ∧
    ((ci_images wSnc wFinal 5 wPosFn).length = (5 : Int).toNat ∧
      (ci_images wSnc wFinal 5 wPosFn)[0]? = some wSnc ∧
      (ci_images wSnc wFinal 5 wPosFn).getLast? = some wFinal) :=
  ⟨by decide, claim_C6_endpoint_fixing wSnc wFinal 5 wPosFn (by decide)⟩

/-! ### C7 — the aggregate verdict is the AND of the per-image checks -/

/-- C7: with a bond-sanity oracle that never raises, the flag
`check_interpolation` returns equals the conjunction of the oracle's verdicts
over every one of the `z` images; in particular it is false as soon as one
image fails, whatever the later images report. -/
theorem claim_C7_aggregate_and (initial final : Structure) (z : Int)
    (posFn : Nat → List Vec3) (cb : Structure → Bool) (verbose save : Bool)
    (hz : 2 ≤ z) :
    (check_interpolation initial final (.int z) posFn
        (fun s => .ok (cb s)) verbose save).2 =
      .ok ((ci_images initial final z posFn).all cb) := by
  simp only [check_interpolation]
  rw [ci_loop_total_ret]
  rw [← ci_images_length initial final z posFn hz, all_range_getD]
  simp

/-- A concrete oracle flagging any atom placed at x = 9 (so exactly the
interior images produced by `wPosFn`). -/
def wCb : Structure → Bool := fun s => !((s.atoms.getD 0 defaultAtom).pos.x == 9)

/-- Witness for C7: a three-image path whose per-image verdicts are
`[true, false, true]` aggregates to `false`. -/
theorem claim_C7_aggregate_and_witness :
    ((2 ≤ (3 : Int)) ∧
      (ci_images wSnc wFinal 3 wPosFn).map wCb = [true, false, true]) ∧
    (check_interpolation wSnc wFinal (.int 3) wPosFn
        (fun s => .ok (wCb s)) false true).2 =
      .ok ((ci_images wSnc wFinal 3 wPosFn).all wCb) :=
  ⟨⟨by decide, by decide⟩,
    claim_C7_aggregate_and wSnc wFinal 3 wPosFn wCb false true (by decide)⟩

/-! ### C8 — only the flag is returned; invalidity does not raise -/

/-- Counterexample to C8 as stated: two runs that assemble different
interpolation paths return identical values to the caller, so the returned
value cannot contain (and does not determine) the assembled path — the
Python function returns only the aggregate flag. -/
theorem claim_C8_counterexample :
    ci_images wSnc wFinal 3 wPosFn ≠ ci_images wSnc wFinal2 3 wPosFn ∧
    check_interpolation_ret wSnc wFinal (.int 3) wPosFn
        (fun _ => .ok true) false false =
      check_interpolation_ret wSnc wFinal2 (.int 3) wPosFn
        (fun _ => .ok true) false false :=
  ⟨by decide, rfl⟩

/-- C8 (amended): for an integer image count and a bond-sanity oracle that
never raises, `check_interpolation` returns normally — a geometrically
invalid path is reported only through the returned boolean, never as an
exception; the assembled path itself is not part of the return value (when
saving it is only persisted to `interpolation.traj`). -/
theorem claim_C8_amended (initial final : Structure) (z : Int)
    (posFn : Nat → List Vec3) (cb : Structure → Bool) (verbose save : Bool) :
    ∃ b : Bool, check_interpolation_ret initial final (.int z) posFn
      (fun s => .ok (cb s)) verbose save = .ok b := by
  refine ⟨true && (List.range z.toNat).all
      (fun i => cb ((ci_images initial final z posFn).getD i emptyStructure)), ?_⟩
  simp only [check_interpolation_ret, check_interpolation]
  exact ci_loop_total_ret _ cb save _ _ _

/-! ### C9 — the trajectory writer is not closed on the error path -/

/-- A one-atom initial endpoint for the failing run. -/
def wC9i : Structure := ⟨[⟨"H", ⟨0, 0, 0⟩⟩], none⟩

/-- A one-atom final endpoint for the failing run. -/
def wC9f : Structure := ⟨[⟨"H", ⟨2, 0, 0⟩⟩], none⟩

/-- The interpolation method for the failing run: the single interior image
gets its atom at x = 1. -/
def wC9pos : Nat → List Vec3 := fun _ => [⟨1, 0, 0⟩]

/-- A bond-sanity oracle that raises on the interior image (atom at x = 1)
and accepts the endpoints. -/
def wC9ck : Structure → Except PyErr Bool := fun s =>
  if (s.atoms.getD 0 defaultAtom).pos.x == 1 then .error .valueError
  else .ok true

/-- C9 fails on the code: with saving enabled and the bond-sanity oracle
raising on the second of three images, the run stops with only the first
image written and the trajectory writer never closed (`t.close()` is only
reached on the normal path; there is no try/finally), contradicting the
claim that every image is written and the writer is released on every exit
path. -/
theorem claim_C9_unclosed_writer :
    (check_interpolation wC9i wC9f (.int 3) wC9pos wC9ck true true).1 =
      some ⟨[wC9i], false⟩ ∧
    (check_interpolation wC9i wC9f (.int 3) wC9pos wC9ck true true).2 =
      .error .valueError :=
  ⟨rfl, rfl⟩

/-! ### The greedy reindexing loop of `switch_all_indices`

For an involutive target permutation the loop realises the permutation: each
2-cycle (k, p k) with k < p k is swapped exactly once, when the loop reaches
its smaller element, and the partner position is skipped because its value
was recorded in `swapped`.  The invariant is phrased through `curList` (the
atom list after a prefix of the loop) and `swappedList` (the accumulator
after a prefix of the loop). -/

/-- The requested target position read off the `new_indices` list, as a
natural number. -/
def pfun (p : List Int) (k : Nat) : Nat := (p.getD k 0).toNat

/-- The atom list after the loop has processed positions `0..i-1`, for an
involutive permutation: position `k` holds the requested atom as soon as the
smaller element of its 2-cycle (k, p k) is below `i`, and still the original
atom otherwise. -/
def curList (s0 : List Atom) (p : List Int) (i : Nat) : List Atom :=
  (List.range s0.length).map
    (fun k => s0.getD (if min k (pfun p k) < i then pfun p k else k) defaultAtom)

/-- The `swapped` accumulator after the loop has processed positions
`0..i-1`, for an involutive permutation: the values `p j` of the processed
positions, which are exactly those `j` with `j < p j`. -/
def swappedList (p : List Int) (i : Nat) : List Int :=
  ((List.range i).filter (fun j => decide (j < pfun p j))).map
    (fun j => ((pfun p j : Nat) : Int))

theorem curList_length (s0 : List Atom) (p : List Int) (i : Nat) :
    (curList s0 p i).length = s0.length := by
  simp [curList]

theorem curList_getElem? (s0 : List Atom) (p : List Int) (i k : Nat)
    (hk : k < s0.length) :
    (curList s0 p i)[k]? =
      some (s0.getD (if min k (pfun p k) < i then pfun p k else k) defaultAtom) := by
  unfold curList
  rw [List.getElem?_map, List.getElem?_range hk]
  rfl

theorem curList_zero (s0 : List Atom) (p : List Int) : curList s0 p 0 = s0 := by
  unfold curList
  have he : ∀ k : Nat, (if min k (pfun p k) < 0 then pfun p k else k) = k := by
    intro k
    simp
  simp only [he]
  exact map_getD_range defaultAtom

theorem swappedList_zero (p : List Int) : swappedList p 0 = [] := rfl

theorem swappedList_succ_skip (p : List Int) (i : Nat) (hle : pfun p i ≤ i) :
    swappedList p (i + 1) = swappedList p i := by
  unfold swappedList
  have hni : ¬ (i < pfun p i) := by omega
  simp [List.range_succ, List.filter_append, hni]

theorem swappedList_succ_swap (p : List Int) (i : Nat) (hlt : i < pfun p i) :
    swappedList p (i + 1) = swappedList p i ++ [((pfun p i : Nat) : Int)] := by
  unfold swappedList
  simp [List.range_succ, List.filter_append, hlt]

theorem mem_swappedList (p : List Int) (N : Nat)
    (hinv : ∀ k, k < N → pfun p (pfun p k) = k)
    (i : Nat) (hiN : i < N) :
    ((i : Int) ∈ swappedList p i) ↔ pfun p i < i := by
  simp only [swappedList, List.mem_map, List.mem_filter, List.mem_range,
    decide_eq_true_eq]
  constructor
  · rintro ⟨j, ⟨hji, hjp⟩, hval⟩
    have hj : pfun p j = i := by exact_mod_cast hval
    have hjN : j < N := lt_trans hji hiN
    have hpi : pfun p i = j := by rw [← hj, hinv j hjN]
    omega
  · intro hlt
    refine ⟨pfun p i, ⟨hlt, ?_⟩, ?_⟩
    · rw [hinv i hiN]
      exact hlt
    · rw [hinv i hiN]

theorem curList_succ_skip (s0 : List Atom) (p : List Int) (i : Nat)
    (hiN : i < s0.length)
    (hinv : ∀ k, k < s0.length → pfun p (pfun p k) = k)
    (hle : pfun p i ≤ i) :
    curList s0 p (i + 1) = curList s0 p i := by
  unfold curList
  apply List.map_congr_left
  intro k hk
  rw [List.mem_range] at hk
  by_cases h1 : min k (pfun p k) < i
  · rw [if_pos (by omega), if_pos h1]
  · by_cases h2 : min k (pfun p k) < i + 1
    · have hmin : min k (pfun p k) = i := by omega
      rw [if_pos h2, if_neg h1]
      by_cases hki : k = i
      · subst hki
        have : pfun p k = k := by omega
        rw [this]
      · exfalso
        have hpk : pfun p k = i := by omega
        have : pfun p i = k := by rw [← hpk, hinv k hk]
        omega
    · rw [if_neg h2, if_neg h1]

theorem curList_succ_swap (s0 : List Atom) (p : List Int) (i : Nat)
    (hiN : i < s0.length)
    (hinv : ∀ k, k < s0.length → pfun p (pfun p k) = k)
    (hlt : i < pfun p i) (hpN : pfun p i < s0.length) :
    lswapN (curList s0 p i) i (pfun p i) = curList s0 p (i + 1) := by
  have hpp : pfun p (pfun p i) = i := hinv i hiN
  apply List.ext_getElem?
  intro k
  have hlen1 : (curList s0 p i).length = s0.length := curList_length s0 p i
  by_cases hkN : k < s0.length
  · rw [lswapN_getElem? (by rw [hlen1]; exact hiN) (by rw [hlen1]; exact hpN) k]
    by_cases hkj : k = pfun p i
    · subst hkj
      rw [if_pos rfl, curList_getElem? s0 p i i hiN,
        curList_getElem? s0 p (i + 1) (pfun p i) hpN]
      rw [hpp, if_neg (by omega), if_pos (by omega)]
    · rw [if_neg hkj]
      by_cases hki : k = i
      · subst hki
        rw [if_pos rfl, curList_getElem? s0 p k (pfun p k) hpN,
          curList_getElem? s0 p (k + 1) k hkN]
        rw [hpp, if_neg (by omega), if_pos (by omega)]
      · rw [if_neg hki, curList_getElem? s0 p i k hkN,
          curList_getElem? s0 p (i + 1) k hkN]
        by_cases hm : min k (pfun p k) < i
        · rw [if_pos hm, if_pos (by omega)]
        · have hnot : ¬ (min k (pfun p k) < i + 1) := by
            intro hm1
            have hpk : pfun p k = i := by omega
            have hcon : pfun p i = k := by rw [← hpk, hinv k hkN]
            omega
          rw [if_neg hm, if_neg hnot]
  · have hr1 : (lswapN (curList s0 p i) i (pfun p i))[k]? = none := by
      rw [List.getElem?_eq_none_iff]
      rw [lswapN_length, hlen1]
      omega
    have hr2 : (curList s0 p (i + 1))[k]? = none := by
      rw [List.getElem?_eq_none_iff, curList_length]
      omega
    rw [hr1, hr2]

/-- Loop invariant of the greedy reindexing, for an involutive in-range
target permutation: processing the remaining positions from `i` with the
accumulator `swappedList p i` and an I1-aligned structure whose atoms are
`curList ... i` succeeds and ends with the fully permuted, still aligned
structure. -/
theorem sai_go_inv (s0 : Structure) (φ : Atom → Vec3) (p : List Int)
    (hrange : ∀ k, k < s0.atoms.length →
      0 ≤ p.getD k 0 ∧ p.getD k 0 < (s0.atoms.length : Int))
    (hinv : ∀ k, k < s0.atoms.length → pfun p (pfun p k) = k) :
    ∀ (d i : Nat), i + d = s0.atoms.length →
    ∀ (h : Heap) (m : Structure),
      m.atoms = curList s0.atoms p i →
      m.calcId = s0.calcId →
      (∀ cid, m.calcId = some cid → cid < h.length) →
      Aligned φ h m →
      ∃ h' m',
        sai_go p (List.range' i d) (swappedList p i) h m = .ok (h', m') ∧
        m'.atoms = curList s0.atoms p s0.atoms.length ∧
        m'.calcId = s0.calcId ∧ Aligned φ h' m' := by
  intro d
  induction d with
  | zero =>
    intro i hiN h m hm hcid hwf hal
    refine ⟨h, m, rfl, ?_, hcid, hal⟩
    have hieq : i = s0.atoms.length := by omega
    rw [hm, hieq]
  | succ d ih =>
    intro i hiN h m hm hcid hwf hal
    have hiN' : i < s0.atoms.length := by omega
    obtain ⟨hge, hltN⟩ := hrange i hiN'
    have hcast : ((pfun p i : Nat) : Int) = p.getD i 0 := Int.toNat_of_nonneg hge
    have hjN : pfun p i < s0.atoms.length := by
      have hx : ((pfun p i : Nat) : Int) < (s0.atoms.length : Int) := by
        rw [hcast]
        exact hltN
      exact_mod_cast hx
    have hmlen : m.atoms.length = s0.atoms.length := by
      rw [hm, curList_length]
    have hrange1 : List.range' i (d + 1) = i :: List.range' (i + 1) d :=
      List.range'_succ i d 1
    by_cases hcond : p.getD i 0 ≠ (i : Int) ∧ (i : Int) ∉ swappedList p i
    · -- the loop swaps positions i and p i
      obtain ⟨hne, hnm⟩ := hcond
      have hji : pfun p i ≠ i := by
        intro hji
        apply hne
        rw [← hcast, hji]
      have hnlt : ¬ (pfun p i < i) := by
        intro hltci
        exact hnm ((mem_swappedList p s0.atoms.length hinv i hiN').mpr hltci)
      have hlt : i < pfun p i := by omega
      have hpa : pyIdx m.atoms.length (.int (i : Int)) = .ok i := by
        rw [hmlen]
        exact pyIdx_nat hiN'
      have hpb : pyIdx m.atoms.length (.int (p.getD i 0)) = .ok (pfun p i) := by
        rw [hmlen, ← hcast]
        exact pyIdx_nat hjN
      have hm1atoms : lswapN m.atoms i (pfun p i) = curList s0.atoms p (i + 1) := by
        rw [hm]
        exact curList_succ_swap s0.atoms p i hiN' hinv hlt hjN
      cases hcalc : m.calcId with
      | none =>
        have hg : getCalc h m = none := by simp [getCalc, hcalc]
        have hok := switch_indices_none hg hpa hpb
        have hs0c : s0.calcId = none := by rw [← hcid, hcalc]
        obtain ⟨h', m', hrun, hatoms, hcid', hal'⟩ :=
          ih (i + 1) (by omega) h ⟨lswapN m.atoms i (pfun p i), none⟩
            hm1atoms (by simpa using hs0c.symm) (by intro cid hc; cases hc)
            (Or.inl (by simp [calcForces, getCalc]))
        refine ⟨h', m', ?_, hatoms, hcid', hal'⟩
        rw [hrange1]
        simp only [sai_go]
        rw [if_pos ⟨hne, hnm⟩, hok]
        have hswap : swappedList p i ++ [p.getD i 0] = swappedList p (i + 1) := by
          rw [swappedList_succ_swap p i hlt, hcast]
        rw [← hswap] at hrun
        exact hrun
      | some cid =>
        have hcidlt : cid < h.length := hwf cid hcalc
        have hhc : h[cid]? = some h[cid] := List.getElem?_eq_getElem hcidlt
        have hg : getCalc h m = some (cid, h[cid]) :=
          getCalc_eq_some.mpr ⟨hcalc, hhc⟩
        have hcf : calcForces h m = some (h[cid]).forces := by
          simp [calcForces, hg]
        have hforces : (h[cid]).forces = m.atoms.map φ := by
          cases hal with
          | inl hnone => rw [hcf] at hnone; cases hnone
          | inr hsome =>
            rw [hcf] at hsome
            exact Option.some_inj.mp hsome
        have hlenf : (h[cid]).forces.length = m.atoms.length := by
          rw [hforces]
          simp
        have hok := switch_indices_calc hg hlenf hpa hpb
        obtain ⟨hal1, _⟩ := switch_indices_aligned hal hok
        have hs0c : s0.calcId = some cid := by rw [← hcid, hcalc]
        obtain ⟨h', m', hrun, hatoms, hcid', hal'⟩ :=
          ih (i + 1) (by omega)
            (h.set cid ⟨(h[cid]).energy, lswapN (h[cid]).forces i (pfun p i),
              lswapN m.atoms i (pfun p i)⟩)
            ⟨lswapN m.atoms i (pfun p i), some cid⟩
            hm1atoms (by simpa using hs0c.symm)
            (by
              intro cid' hc
              have hcc : cid' = cid := by
                have := Option.some_inj.mp hc
                omega
              rw [hcc, List.length_set]
              exact hcidlt)
            hal1
        refine ⟨h', m', ?_, hatoms, hcid', hal'⟩
        rw [hrange1]
        simp only [sai_go]
        rw [if_pos ⟨hne, hnm⟩, hok]
        have hswap : swappedList p i ++ [p.getD i 0] = swappedList p (i + 1) := by
          rw [swappedList_succ_swap p i hlt, hcast]
        rw [← hswap] at hrun
        exact hrun
    · -- the loop skips position i
      have hle : pfun p i ≤ i := by
        rcases Decidable.not_and_iff_or_not.mp hcond with hni | hmem
        · have : p.getD i 0 = (i : Int) := Decidable.not_not.mp hni
          have : pfun p i = i := by
            have hx : ((pfun p i : Nat) : Int) = (i : Int) := by rw [hcast, this]
            exact_mod_cast hx
          omega
        · have hmem' : (i : Int) ∈ swappedList p i := Decidable.not_not.mp hmem
          have := (mem_swappedList p s0.atoms.length hinv i hiN').mp hmem'
          omega
      obtain ⟨h', m', hrun, hatoms, hcid', hal'⟩ :=
        ih (i + 1) (by omega) h m
          (by rw [curList_succ_skip s0.atoms p i hiN' hinv hle]; exact hm)
          hcid hwf hal
      refine ⟨h', m', ?_, hatoms, hcid', hal'⟩
      rw [hrange1]
      simp only [sai_go]
      rw [if_neg hcond]
      rw [swappedList_succ_skip p i hle] at hrun
      exact hrun

/-! ### C3 — reindex correctness -/

/-- A nitrogen atom at x = 6. -/
def wAtomC : Atom := ⟨"N", ⟨6, 0, 0⟩⟩

/-- A three-atom structure with no calculator. -/
def wS3 : Structure := ⟨[wAtomA, wAtomB, wAtomC], none⟩

/-- Counterexample to C3 as stated: for the 3-cycle target permutation
`[1, 2, 0]` (a bijection on `[0, 3)`), `switch_all_indices` returns the
ordering `[wAtomC, wAtomA, wAtomB]`, whose entry at position 0 is not the
original atom `targetPermutation[0] = 1`: after swapping positions 0 and 1
the loop skips position 1 (its value 1 is in `swapped`) and then swaps
positions 2 and 0, so the greedy decomposition does not realise the
requested permutation. -/
theorem claim_C3_counterexample :
    switch_all_indices [] wS3 [1, 2, 0] =
      .ok ([], ⟨[wAtomC, wAtomA, wAtomB], none⟩) ∧
    (⟨[wAtomC, wAtomA, wAtomB], none⟩ : Structure).atoms[0]? ≠
      wS3.atoms[(([1, 2, 0] : List Int).getD 0 0).toNat]? :=
  ⟨rfl, by decide⟩

/-- C3 (amended): for an involutive target permutation — every value in
`[0, N)` appears exactly once and `targetPermutation` is its own inverse —
`switch_all_indices` succeeds and returns a single new structure in which
the atom at position `i` is the original atom `targetPermutation[i]` for
every `i`, with an attached force vector still aligned per Invariant I1 (the
loop is a sequence of `switch_indices` swaps, each of which preserves I1, so
alignment also holds at every intermediate step).  For non-involutive
permutations the greedy decomposition produces a different ordering. -/
theorem claim_C3_amended (h : Heap) (s : Structure) (φ : Atom → Vec3)
    (p : List Int) (hlen : p.length = s.atoms.length)
    (hrange : ∀ k, k < s.atoms.length →
      0 ≤ p.getD k 0 ∧ p.getD k 0 < (s.atoms.length : Int))
    (hinv : ∀ k, k < s.atoms.length → pfun p (pfun p k) = k)
    (hwf : ∀ cid, s.calcId = some cid → cid < h.length)
    (hal : Aligned φ h s) :
    ∃ h' s', switch_all_indices h s p = .ok (h', s') ∧
      s'.atoms.length = s.atoms.length ∧
      (∀ k, k < s.atoms.length → s'.atoms[k]? = s.atoms[pfun p k]?) ∧
      s'.calcId = s.calcId ∧ Aligned φ h' s' := by
  obtain ⟨h', s', hrun, hatoms, hcid', hal'⟩ :=
    sai_go_inv s φ p hrange hinv s.atoms.length 0 (by omega) h s
      (by rw [curList_zero]) rfl hwf hal
  refine ⟨h', s', ?_, ?_, ?_, hcid', hal'⟩
  · unfold switch_all_indices
    rw [hlen, List.range_eq_range']
    exact hrun
  · rw [hatoms, curList_length]
  · intro k hk
    rw [hatoms, curList_getElem? s.atoms p s.atoms.length k hk]
    rw [if_pos (by omega)]
    have hpk : pfun p k < s.atoms.length := by
      obtain ⟨hge, hlt⟩ := hrange k hk
      have hx : ((pfun p k : Nat) : Int) = p.getD k 0 := Int.toNat_of_nonneg hge
      have : ((pfun p k : Nat) : Int) < (s.atoms.length : Int) := by
        rw [hx]
        exact hlt
      exact_mod_cast this
    rw [List.getD_eq_getElem s.atoms defaultAtom hpk,
      List.getElem?_eq_getElem hpk]

/-- A calculator holding cached results for the three-atom structure. -/
def wCalc3 : Calculator :=
  ⟨7, [wPhi wAtomA, wPhi wAtomB, wPhi wAtomC], [wAtomA, wAtomB, wAtomC]⟩

/-- A one-calculator heap for the three-atom structure. -/
def wHeap3 : Heap := [wCalc3]

/-- The three-atom structure with the calculator attached. -/
def wS3c : Structure := ⟨[wAtomA, wAtomB, wAtomC], some 0⟩

/-- Witness for the amended C3 at the involution `[1, 0, 2]` on a three-atom
structure with an attached aligned calculator. -/
theorem claim_C3_amended_witness :
    (([1, 0, 2] : List Int).length = wS3c.atoms.length ∧
      (∀ k, k < wS3c.atoms.length →
        0 ≤ ([1, 0, 2] : List Int).getD k 0 ∧
        ([1, 0, 2] : List Int).getD k 0 < (wS3c.atoms.length : Int)) ∧
      (∀ k, k < wS3c.atoms.length →
        pfun [1, 0, 2] (pfun [1, 0, 2] k) = k) ∧
      Aligned wPhi wHeap3 wS3c) ∧
    (∃ h' s', switch_all_indices wHeap3 wS3c [1, 0, 2] = .ok (h', s') ∧
      s'.atoms.length = wS3c.atoms.length ∧
      (∀ k, k < wS3c.atoms.length →
        s'.atoms[k]? = wS3c.atoms[pfun [1, 0, 2] k]?) ∧
      s'.calcId = wS3c.calcId ∧ Aligned wPhi h' s') :=
  ⟨⟨by decide, by decide, by decide, by decide⟩,
    claim_C3_amended wHeap3 wS3c wPhi [1, 0, 2] (by decide) (by decide)
      (by decide)
      (by
        intro cid hc
        have hx := Option.some_inj.mp hc
        have hy : wHeap3.length = 1 := rfl
        omega)
      (by decide)⟩

end CarmmNeb
